import Mathlib

/-!
Shallow embedding of the volumetric statistics engine of
src/services/volumetry_service.py (class VolumetryService).

Modelling conventions:
* Voxel data (floats produced by get_fdata) and all world coordinates are
  modelled as exact rationals.
* A NaN float component is modelled as the value none of Option; a finite
  float component is some q.  The code only ever produces the all-NaN
  centroid triple (label absent) or an all-finite one.
* numpy arrays of voxel indices (np.argwhere output) are lists of index
  triples in C (lexicographic) order, which is the order argwhere yields.
* Python dicts (labels_dict) are association lists in insertion order,
  Python dict iteration order.
-/

namespace Volumetry

/-- A 3-vector of rational coordinates (a row of an (N,3) numpy array). -/
@[ext]
structure Vec3 where
  x : ℚ
  y : ℚ
  z : ℚ
  deriving DecidableEq

/-- The top three rows of the 4x4 voxel-to-world affine matrix (the fourth
row is the homogeneous [0,0,0,1] row and is never read by apply_affine). -/
structure Affine where
  m00 : ℚ
  m01 : ℚ
  m02 : ℚ
  m03 : ℚ
  m10 : ℚ
  m11 : ℚ
  m12 : ℚ
  m13 : ℚ
  m20 : ℚ
  m21 : ℚ
  m22 : ℚ
  m23 : ℚ
  deriving DecidableEq

/-- nib.affines.apply_affine on a single point: multiply the 3x3 block and
add the translation column. -/
def applyAffine (A : Affine) (v : Vec3) : Vec3 :=
  ⟨A.m00 * v.x + A.m01 * v.y + A.m02 * v.z + A.m03,
   A.m10 * v.x + A.m11 * v.y + A.m12 * v.z + A.m13,
   A.m20 * v.x + A.m21 * v.y + A.m22 * v.z + A.m23⟩

/-- The canonically oriented segmentation array seg_data: shape (nx,ny,nz)
and a value (a float label) at every index triple. -/
structure Volume where
  nx : ℕ
  ny : ℕ
  nz : ℕ
  data : ℕ → ℕ → ℕ → ℚ

/-- All index triples of the array in C (row-major) order, the order in
which np.argwhere enumerates matching indices. -/
def voxelIndices (vol : Volume) : List (ℕ × ℕ × ℕ) :=
  (List.range vol.nx).flatMap fun i =>
    (List.range vol.ny).flatMap fun j =>
      (List.range vol.nz).map fun k => (i, j, k)

/-- np.argwhere(mask): the index triples (as float rows) whose value
satisfies the mask predicate, in C order. -/
def argwhere (vol : Volume) (mask : ℚ → Bool) : List Vec3 :=
  ((voxelIndices vol).filter fun t => mask (vol.data t.1 t.2.1 t.2.2)).map
    fun t => ⟨(t.1 : ℚ), (t.2.1 : ℚ), (t.2.2 : ℚ)⟩

/-- The mask seg_data == label for an integer label key. -/
def labelMask (label : ℤ) : ℚ → Bool := fun q => decide (q = (label : ℚ))

/-- The foreground mask seg_data > 0. -/
def fgMask : ℚ → Bool := fun q => decide (0 < q)

/-- np.mean(coords, axis=0): component-wise mean of an (N,3) array. -/
def vmean (l : List Vec3) : Vec3 :=
  ⟨(l.map Vec3.x).sum / l.length,
   (l.map Vec3.y).sum / l.length,
   (l.map Vec3.z).sum / l.length⟩

/-- VolumetryService._centroid_mm: NaN triple (modelled none) when no voxel
is selected, else the affine applied to the mean voxel index. -/
def centroid_mm (A : Affine) (coords : List Vec3) :
    Option ℚ × Option ℚ × Option ℚ :=
  if coords.isEmpty then (none, none, none)
  else
    let c := applyAffine A (vmean coords)
    (some c.x, some c.y, some c.z)

/-- VolumetryService._hemispheric_counts: world-space left/right voxel
counts about the plane x = mid_x_mm (left strict, right inclusive). -/
def hemisphericCounts (A : Affine) (coords : List Vec3) (mid_x_mm : ℚ) :
    ℕ × ℕ :=
  if coords.isEmpty then (0, 0)
  else
    let xs := coords.map fun v => (applyAffine A v).x
    (xs.countP fun t => decide (t < mid_x_mm),
     xs.countP fun t => decide (mid_x_mm ≤ t))

/-- np.median of a 1-D array: sort ascending; odd length takes the middle
element, even length averages the two middle elements. -/
def medianQ (l : List ℚ) : ℚ :=
  let s := List.insertionSort (· ≤ ·) l
  if l.length % 2 = 1 then s.getD (l.length / 2) 0
  else (s.getD (l.length / 2 - 1) 0 + s.getD (l.length / 2) 0) / 2

/-- The array's central voxel index (shape - 1) / 2 as used by the empty
segmentation fallback. -/
def centerVox (vol : Volume) : Vec3 :=
  ⟨((vol.nx : ℚ) - 1) / 2, ((vol.ny : ℚ) - 1) / 2, ((vol.nz : ℚ) - 1) / 2⟩

/-- Step 2 of process_study: the median sagittal plane.  Median of the
world x of every voxel with seg_data > 0, falling back to the world x of
the central voxel index when the segmentation is empty. -/
def mid_x_mm (vol : Volume) (A : Affine) : ℚ :=
  let brain := argwhere vol fgMask
  if brain.isEmpty then (applyAffine A (centerVox vol)).x
  else medianQ (brain.map fun v => (applyAffine A v).x)

/-- One output row of process_study.  NaN centroid components are the
value none. -/
structure LabelRecord where
  patient : String
  label : String
  volume_mL : ℚ
  asymmetry_index : ℚ
  centroid_x_mm : Option ℚ
  centroid_y_mm : Option ℚ
  centroid_z_mm : Option ℚ
  deriving DecidableEq

/-- A default record used only as the List.getD fallback in statements. -/
def defaultRecord : LabelRecord :=
  ⟨"", "", 0, 0, none, none, none⟩

/-- patient = filename.split(".")[0]: Python str.split on "." always
returns a nonempty chunk list; element 0 is the text before the first
dot (the whole name when there is no dot). -/
def patientOf (filename : String) : String :=
  String.mk ((filename.toList.splitOn '.').headD [])

/-- The body of the per-label loop of process_study. -/
def processLabel (A : Affine) (vol : Volume) (voxel_volume_ml : ℚ)
    (mid : ℚ) (patient : String) (label : ℤ) (name : String) : LabelRecord :=
  let coords := argwhere vol (labelMask label)
  let count_vox := coords.length
  let volume_mL := (count_vox : ℚ) * voxel_volume_ml
  let lr := hemisphericCounts A coords mid
  let asymmetry_index :=
    if 0 < lr.1 + lr.2 then ((lr.1 : ℚ) - (lr.2 : ℚ)) / ((lr.1 : ℚ) + (lr.2 : ℚ))
    else 0
  let c := centroid_mm A coords
  { patient := patient
    label := name
    volume_mL := volume_mL
    asymmetry_index := asymmetry_index
    centroid_x_mm := c.1
    centroid_y_mm := c.2.1
    centroid_z_mm := c.2.2 }

/-- The computational core of VolumetryService.process_study after the
file has been loaded and canonicalized: zooms are the header voxel
spacings, labels_dict the configured label mapping.  Produces the results
list that is serialized to metrics.json. -/
def process_study (filename : String) (vol : Volume) (affine : Affine)
    (zooms : Vec3) (labels_dict : List (ℤ × String)) : List LabelRecord :=
  let patient := patientOf filename
  let voxel_volume_ml := zooms.x * zooms.y * zooms.z / 1000
  let mid := mid_x_mm vol affine
  labels_dict.map fun ln =>
    processLabel affine vol voxel_volume_ml mid patient ln.1 ln.2

/-- The VolumetryService class: its only engine state is labels_dict. -/
structure VolumetryService where
  labels_dict : List (ℤ × String)

/-- VolumetryService.__init__: takes no caller argument and installs the
fixed mapping {1: "ET", 2: "WT", 3: "TC"}. -/
def VolumetryService.init : VolumetryService :=
  ⟨[(1, "ET"), (2, "WT"), (3, "TC")]⟩

/-- process_study as the method of the service object, reading
self.labels_dict. -/
def VolumetryService.process_study (svc : VolumetryService)
    (filename : String) (vol : Volume) (affine : Affine) (zooms : Vec3) :
    List LabelRecord :=
  Volumetry.process_study filename vol affine zooms svc.labels_dict

/-! Supporting lemmas -/

/-- Splitting a list of reals at a threshold by strict-less and
greater-or-equal counts every element exactly once. -/
theorem countP_lt_add_countP_le (xs : List ℚ) (m : ℚ) :
    (xs.countP fun t => decide (t < m)) + (xs.countP fun t => decide (m ≤ t))
      = xs.length := by
  have h : (xs.countP fun t => decide (m ≤ t))
      = xs.countP fun a => decide (¬ (decide (a < m)) = true) := by
    apply List.countP_congr
    intro a _
    simp [not_lt]
  rw [h]
  exact (List.length_eq_countP_add_countP _ _).symm

/-- Summing an affine functional over a list of vectors. -/
theorem sum_map_lin (a b c d : ℚ) (l : List Vec3) :
    (l.map fun v => a * v.x + b * v.y + c * v.z + d).sum
      = a * (l.map Vec3.x).sum + b * (l.map Vec3.y).sum
        + c * (l.map Vec3.z).sum + (l.length : ℚ) * d := by
  induction l with
  | nil => simp
  | cons v tl ih =>
    simp only [List.map_cons, List.sum_cons, ih, List.length_cons]
    push_cast
    ring

/-- Applying the affine to the mean voxel index equals the mean of the
affinely transformed voxel indices (the key exchange law behind
_centroid_mm). -/
theorem applyAffine_vmean (A : Affine) (l : List Vec3) (h : l ≠ []) :
    applyAffine A (vmean l) = vmean (l.map (applyAffine A)) := by
  have hn : (l.length : ℚ) ≠ 0 := by
    simpa using List.length_pos.mpr h |>.ne'
  ext
  · show A.m00 * ((l.map Vec3.x).sum / l.length)
        + A.m01 * ((l.map Vec3.y).sum / l.length)
        + A.m02 * ((l.map Vec3.z).sum / l.length) + A.m03
      = ((l.map (applyAffine A)).map Vec3.x).sum / (l.map (applyAffine A)).length
    rw [List.map_map, List.length_map]
    show _ = (l.map fun v =>
      A.m00 * v.x + A.m01 * v.y + A.m02 * v.z + A.m03).sum / (l.length : ℚ)
    rw [sum_map_lin]
    field_simp
    ring
  · show A.m10 * ((l.map Vec3.x).sum / l.length)
        + A.m11 * ((l.map Vec3.y).sum / l.length)
        + A.m12 * ((l.map Vec3.z).sum / l.length) + A.m13
      = ((l.map (applyAffine A)).map Vec3.y).sum / (l.map (applyAffine A)).length
    rw [List.map_map, List.length_map]
    show _ = (l.map fun v =>
      A.m10 * v.x + A.m11 * v.y + A.m12 * v.z + A.m13).sum / (l.length : ℚ)
    rw [sum_map_lin]
    field_simp
    ring
  · show A.m20 * ((l.map Vec3.x).sum / l.length)
        + A.m21 * ((l.map Vec3.y).sum / l.length)
        + A.m22 * ((l.map Vec3.z).sum / l.length) + A.m23
      = ((l.map (applyAffine A)).map Vec3.z).sum / (l.map (applyAffine A)).length
    rw [List.map_map, List.length_map]
    show _ = (l.map fun v =>
      A.m20 * v.x + A.m21 * v.y + A.m22 * v.z + A.m23).sum / (l.length : ℚ)
    rw [sum_map_lin]
    field_simp
    ring

/-- A nonempty selection makes the isEmpty guards take the else branch. -/
theorem isEmpty_eq_false_of_ne_nil {l : List Vec3} (h : l ≠ []) :
    l.isEmpty = false := by
  simpa [List.isEmpty_iff] using h

/-- The hemisphere counts always sum to the number of selected voxels. -/
theorem hemisphericCounts_sum (A : Affine) (coords : List Vec3) (mid : ℚ) :
    (hemisphericCounts A coords mid).1 + (hemisphericCounts A coords mid).2
      = coords.length := by
  by_cases h : coords = []
  · subst h
    simp [hemisphericCounts]
  · have he := isEmpty_eq_false_of_ne_nil h
    simp only [hemisphericCounts, he, Bool.false_eq_true, if_false]
    rw [countP_lt_add_countP_le, List.length_map]

/-- The record at position i of the output is the per-label computation
for the label mapping entry at position i, with the shared midline and
the shared voxel volume. -/
theorem process_study_getD (filename : String) (vol : Volume) (A : Affine)
    (zooms : Vec3) (labels : List (ℤ × String)) (i : ℕ)
    (hi : i < labels.length) :
    (process_study filename vol A zooms labels).getD i defaultRecord
      = processLabel A vol (zooms.x * zooms.y * zooms.z / 1000)
          (mid_x_mm vol A) (patientOf filename)
          (labels.getD i (0, "")).1 (labels.getD i (0, "")).2 := by
  simp only [process_study]
  rw [List.getD_eq_getElem?_getD, List.getD_eq_getElem?_getD,
    List.getElem?_map, List.getElem?_eq_getElem hi]
  rfl

/-- The normalized count difference of a two-part partition lies in
[-1, 1] and is positive exactly when the first part dominates. -/
theorem asymBounds (a b : ℕ) (hpos : 0 < a + b) :
    -1 ≤ ((a : ℚ) - b) / ((a : ℚ) + b)
    ∧ ((a : ℚ) - b) / ((a : ℚ) + b) ≤ 1
    ∧ (0 < ((a : ℚ) - b) / ((a : ℚ) + b) ↔ b < a) := by
  have hq : (0 : ℚ) < (a : ℚ) + b := by
    have hc : (0 : ℚ) < ((a + b : ℕ) : ℚ) := by exact_mod_cast hpos
    push_cast at hc
    linarith
  have ha : (0 : ℚ) ≤ (a : ℚ) := by positivity
  have hb : (0 : ℚ) ≤ (b : ℚ) := by positivity
  refine ⟨?_, ?_, ?_⟩
  · rw [le_div_iff₀ hq]
    linarith
  · rw [div_le_one hq]
    linarith
  · rw [lt_div_iff₀ hq]
    constructor
    · intro hlt
      have hba : (b : ℚ) < a := by linarith
      exact_mod_cast hba
    · intro hlt
      have hba : (b : ℚ) < a := by exact_mod_cast hlt
      linarith

/-! Concrete inputs used by witnesses and scenarios -/

/-- The (4,4,4) volume with a single voxel labeled 1 at index (0,0,0). -/
def vol447 : Volume :=
  ⟨4, 4, 4, fun i j k => if i = 0 ∧ j = 0 ∧ k = 0 then 1 else 0⟩

/-- The identity voxel-to-world affine. -/
def idAffine : Affine := ⟨1, 0, 0, 0, 0, 1, 0, 0, 0, 0, 1, 0⟩

/-! Claims -/

/-- C1: for every label with at least one matching voxel, the hemisphere
counts partition the label's voxels exactly: left counts the transformed
points with world-x strictly below mid_x_mm, right counts those with
world-x at or above it (midline ties go right), and left + right is the
label's voxel count. -/
theorem claim_C1_hemisphere_partition (vol : Volume) (A : Affine) (mid : ℚ)
    (label : ℤ) (h : argwhere vol (labelMask label) ≠ []) :
    (hemisphericCounts A (argwhere vol (labelMask label)) mid).1
        = (((argwhere vol (labelMask label)).map fun v =>
            (applyAffine A v).x).countP fun t => decide (t < mid))
    ∧ (hemisphericCounts A (argwhere vol (labelMask label)) mid).2
        = (((argwhere vol (labelMask label)).map fun v =>
            (applyAffine A v).x).countP fun t => decide (mid ≤ t))
    ∧ (hemisphericCounts A (argwhere vol (labelMask label)) mid).1
        + (hemisphericCounts A (argwhere vol (labelMask label)) mid).2
        = (argwhere vol (labelMask label)).length := by
  have he := isEmpty_eq_false_of_ne_nil h
  refine ⟨by simp [hemisphericCounts, he], by simp [hemisphericCounts, he], ?_⟩
  simp only [hemisphericCounts, he, Bool.false_eq_true, if_false]
  rw [countP_lt_add_countP_le, List.length_map]

/-- Witness for C1 at the concrete single-voxel volume. -/
theorem claim_C1_hemisphere_partition_witness :
    argwhere vol447 (labelMask 1) ≠ []
    ∧ ((hemisphericCounts idAffine (argwhere vol447 (labelMask 1)) 0).1
        = (((argwhere vol447 (labelMask 1)).map fun v =>
            (applyAffine idAffine v).x).countP fun t => decide (t < 0))
      ∧ (hemisphericCounts idAffine (argwhere vol447 (labelMask 1)) 0).2
        = (((argwhere vol447 (labelMask 1)).map fun v =>
            (applyAffine idAffine v).x).countP fun t => decide ((0 : ℚ) ≤ t))
      ∧ (hemisphericCounts idAffine (argwhere vol447 (labelMask 1)) 0).1
        + (hemisphericCounts idAffine (argwhere vol447 (labelMask 1)) 0).2
        = (argwhere vol447 (labelMask 1)).length) :=
  ⟨by decide, claim_C1_hemisphere_partition vol447 idAffine 0 1 (by decide)⟩

/-- The spec's description of the centroid: the component-wise mean of the
world coordinates obtained by transforming each selected voxel index. -/
def specCentroid (A : Affine) (coords : List Vec3) : Vec3 :=
  vmean (coords.map (applyAffine A))

/-- C2: for every label with at least one matching voxel, the centroid
computed by _centroid_mm (affine applied to the mean voxel index) equals
the spec's component-wise mean of the transformed world coordinates. -/
theorem claim_C2_centroid_mean_exchange (vol : Volume) (A : Affine)
    (label : ℤ) (h : argwhere vol (labelMask label) ≠ []) :
    centroid_mm A (argwhere vol (labelMask label))
      = (some (specCentroid A (argwhere vol (labelMask label))).x,
         some (specCentroid A (argwhere vol (labelMask label))).y,
         some (specCentroid A (argwhere vol (labelMask label))).z) := by
  have he := isEmpty_eq_false_of_ne_nil h
  simp only [centroid_mm, he, Bool.false_eq_true, if_false,
    applyAffine_vmean A _ h, specCentroid]

/-- Witness for C2 at the concrete single-voxel volume. -/
theorem claim_C2_centroid_mean_exchange_witness :
    argwhere vol447 (labelMask 1) ≠ []
    ∧ centroid_mm idAffine (argwhere vol447 (labelMask 1))
      = (some (specCentroid idAffine (argwhere vol447 (labelMask 1))).x,
         some (specCentroid idAffine (argwhere vol447 (labelMask 1))).y,
         some (specCentroid idAffine (argwhere vol447 (labelMask 1))).z) :=
  ⟨by decide, claim_C2_centroid_mean_exchange vol447 idAffine 1 (by decide)⟩

/-- C3: a configured label with zero matching voxels yields a record with
volume_mL = 0, asymmetry_index = 0, and all three centroid components
NaN (modelled as none, never a numeric zero). -/
theorem claim_C3_absent_label (filename : String) (vol : Volume) (A : Affine)
    (zooms : Vec3) (labels : List (ℤ × String)) (i : ℕ)
    (hi : i < labels.length)
    (hempty : argwhere vol (labelMask (labels.getD i (0, "")).1) = []) :
    ((process_study filename vol A zooms labels).getD i defaultRecord).volume_mL = 0
    ∧ ((process_study filename vol A zooms labels).getD i defaultRecord).asymmetry_index = 0
    ∧ ((process_study filename vol A zooms labels).getD i defaultRecord).centroid_x_mm = none
    ∧ ((process_study filename vol A zooms labels).getD i defaultRecord).centroid_y_mm = none
    ∧ ((process_study filename vol A zooms labels).getD i defaultRecord).centroid_z_mm = none := by
  rw [process_study_getD filename vol A zooms labels i hi]
  simp only [processLabel, hempty]
  simp [hemisphericCounts, centroid_mm]

/-- Witness for C3: label 5 has no voxel in the single-voxel volume. -/
theorem claim_C3_absent_label_witness :
    (0 < ([(5, "X")] : List (ℤ × String)).length
      ∧ argwhere vol447 (labelMask (([(5, "X")] : List (ℤ × String)).getD 0 (0, "")).1) = [])
    ∧ (((process_study "sub.nii.gz" vol447 idAffine ⟨1, 1, 1⟩ [(5, "X")]).getD 0 defaultRecord).volume_mL = 0
      ∧ ((process_study "sub.nii.gz" vol447 idAffine ⟨1, 1, 1⟩ [(5, "X")]).getD 0 defaultRecord).asymmetry_index = 0
      ∧ ((process_study "sub.nii.gz" vol447 idAffine ⟨1, 1, 1⟩ [(5, "X")]).getD 0 defaultRecord).centroid_x_mm = none
      ∧ ((process_study "sub.nii.gz" vol447 idAffine ⟨1, 1, 1⟩ [(5, "X")]).getD 0 defaultRecord).centroid_y_mm = none
      ∧ ((process_study "sub.nii.gz" vol447 idAffine ⟨1, 1, 1⟩ [(5, "X")]).getD 0 defaultRecord).centroid_z_mm = none) :=
  ⟨⟨by decide, by decide⟩,
    claim_C3_absent_label "sub.nii.gz" vol447 idAffine ⟨1, 1, 1⟩ [(5, "X")] 0
      (by decide) (by decide)⟩

/-- C4: the emitted asymmetry index is (left - right) / (left + right)
when left + right > 0 and 0 otherwise; with at least one voxel it lies in
[-1, 1] and is positive exactly when the left count dominates. -/
theorem claim_C4_asymmetry_index (filename : String) (vol : Volume)
    (A : Affine) (zooms : Vec3) (labels : List (ℤ × String)) (i : ℕ)
    (hi : i < labels.length) :
    ((process_study filename vol A zooms labels).getD i defaultRecord).asymmetry_index
      = (if 0 < (hemisphericCounts A (argwhere vol (labelMask (labels.getD i (0, "")).1)) (mid_x_mm vol A)).1
            + (hemisphericCounts A (argwhere vol (labelMask (labels.getD i (0, "")).1)) (mid_x_mm vol A)).2
         then (((hemisphericCounts A (argwhere vol (labelMask (labels.getD i (0, "")).1)) (mid_x_mm vol A)).1 : ℚ)
              - ((hemisphericCounts A (argwhere vol (labelMask (labels.getD i (0, "")).1)) (mid_x_mm vol A)).2 : ℚ))
            / (((hemisphericCounts A (argwhere vol (labelMask (labels.getD i (0, "")).1)) (mid_x_mm vol A)).1 : ℚ)
              + ((hemisphericCounts A (argwhere vol (labelMask (labels.getD i (0, "")).1)) (mid_x_mm vol A)).2 : ℚ))
         else 0)
    ∧ (argwhere vol (labelMask (labels.getD i (0, "")).1) ≠ [] →
        -1 ≤ ((process_study filename vol A zooms labels).getD i defaultRecord).asymmetry_index
        ∧ ((process_study filename vol A zooms labels).getD i defaultRecord).asymmetry_index ≤ 1
        ∧ (0 < ((process_study filename vol A zooms labels).getD i defaultRecord).asymmetry_index
            ↔ (hemisphericCounts A (argwhere vol (labelMask (labels.getD i (0, "")).1)) (mid_x_mm vol A)).2
              < (hemisphericCounts A (argwhere vol (labelMask (labels.getD i (0, "")).1)) (mid_x_mm vol A)).1)) := by
  rw [process_study_getD filename vol A zooms labels i hi]
  refine ⟨by simp [processLabel], ?_⟩
  intro hne
  have hsum := hemisphericCounts_sum A
    (argwhere vol (labelMask (labels.getD i (0, "")).1)) (mid_x_mm vol A)
  have hpos : 0 < (hemisphericCounts A (argwhere vol (labelMask (labels.getD i (0, "")).1)) (mid_x_mm vol A)).1
      + (hemisphericCounts A (argwhere vol (labelMask (labels.getD i (0, "")).1)) (mid_x_mm vol A)).2 := by
    rw [hsum]
    exact List.length_pos.mpr hne
  simp only [processLabel, if_pos hpos]
  exact asymBounds _ _ hpos

/-- Witness for C4 at the single-voxel volume with label 1. -/
theorem claim_C4_asymmetry_index_witness :
    0 < ([(1, "ET")] : List (ℤ × String)).length
    ∧ (((process_study "sub.nii.gz" vol447 idAffine ⟨1, 1, 1⟩ [(1, "ET")]).getD 0 defaultRecord).asymmetry_index
        = (if 0 < (hemisphericCounts idAffine (argwhere vol447 (labelMask (([(1, "ET")] : List (ℤ × String)).getD 0 (0, "")).1)) (mid_x_mm vol447 idAffine)).1
              + (hemisphericCounts idAffine (argwhere vol447 (labelMask (([(1, "ET")] : List (ℤ × String)).getD 0 (0, "")).1)) (mid_x_mm vol447 idAffine)).2
           then (((hemisphericCounts idAffine (argwhere vol447 (labelMask (([(1, "ET")] : List (ℤ × String)).getD 0 (0, "")).1)) (mid_x_mm vol447 idAffine)).1 : ℚ)
                - ((hemisphericCounts idAffine (argwhere vol447 (labelMask (([(1, "ET")] : List (ℤ × String)).getD 0 (0, "")).1)) (mid_x_mm vol447 idAffine)).2 : ℚ))
              / (((hemisphericCounts idAffine (argwhere vol447 (labelMask (([(1, "ET")] : List (ℤ × String)).getD 0 (0, "")).1)) (mid_x_mm vol447 idAffine)).1 : ℚ)
                + ((hemisphericCounts idAffine (argwhere vol447 (labelMask (([(1, "ET")] : List (ℤ × String)).getD 0 (0, "")).1)) (mid_x_mm vol447 idAffine)).2 : ℚ))
           else 0)
      ∧ (argwhere vol447 (labelMask (([(1, "ET")] : List (ℤ × String)).getD 0 (0, "")).1) ≠ [] →
          -1 ≤ ((process_study "sub.nii.gz" vol447 idAffine ⟨1, 1, 1⟩ [(1, "ET")]).getD 0 defaultRecord).asymmetry_index
          ∧ ((process_study "sub.nii.gz" vol447 idAffine ⟨1, 1, 1⟩ [(1, "ET")]).getD 0 defaultRecord).asymmetry_index ≤ 1
          ∧ (0 < ((process_study "sub.nii.gz" vol447 idAffine ⟨1, 1, 1⟩ [(1, "ET")]).getD 0 defaultRecord).asymmetry_index
              ↔ (hemisphericCounts idAffine (argwhere vol447 (labelMask (([(1, "ET")] : List (ℤ × String)).getD 0 (0, "")).1)) (mid_x_mm vol447 idAffine)).2
                < (hemisphericCounts idAffine (argwhere vol447 (labelMask (([(1, "ET")] : List (ℤ × String)).getD 0 (0, "")).1)) (mid_x_mm vol447 idAffine)).1))) :=
  ⟨by decide,
    claim_C4_asymmetry_index "sub.nii.gz" vol447 idAffine ⟨1, 1, 1⟩ [(1, "ET")] 0 (by decide)⟩

/-- The spec's foreground selection: every voxel whose label is nonzero
(the code instead tests seg_data > 0). -/
def nonzeroMask : ℚ → Bool := fun q => decide (¬ q = 0)

/-- Under the data-model invariant that labels are nonnegative, the
spec's nonzero selection and the code's positive selection agree. -/
theorem argwhere_nonzero_eq_fg (vol : Volume)
    (hnn : ∀ t ∈ voxelIndices vol, 0 ≤ vol.data t.1 t.2.1 t.2.2) :
    argwhere vol nonzeroMask = argwhere vol fgMask := by
  unfold argwhere
  congr 1
  apply List.filter_congr
  intro t ht
  have hd := hnn t ht
  simp only [nonzeroMask, fgMask, decide_eq_decide]
  constructor
  · intro hne
    exact lt_of_le_of_ne hd (fun hc => hne hc.symm)
  · intro hlt
    exact fun hc => absurd hc.symm hlt.ne

/-- C5: under the nonnegative-label invariant there is a single midline
value m, shared by every label's record in the run: m is the median of
the world-x coordinates of all voxels with nonzero label when any exist,
and the world-x of the central voxel index otherwise. -/
theorem claim_C5_shared_midline (filename : String) (vol : Volume)
    (A : Affine) (zooms : Vec3) (labels : List (ℤ × String))
    (hnn : ∀ t ∈ voxelIndices vol, 0 ≤ vol.data t.1 t.2.1 t.2.2) :
    ∃ m : ℚ,
      (argwhere vol nonzeroMask ≠ [] →
        m = medianQ ((argwhere vol nonzeroMask).map fun v => (applyAffine A v).x))
      ∧ (argwhere vol nonzeroMask = [] → m = (applyAffine A (centerVox vol)).x)
      ∧ process_study filename vol A zooms labels
          = (labels.map fun ln =>
              processLabel A vol (zooms.x * zooms.y * zooms.z / 1000) m
                (patientOf filename) ln.1 ln.2) := by
  refine ⟨mid_x_mm vol A, ?_, ?_, rfl⟩
  · intro hne
    rw [argwhere_nonzero_eq_fg vol hnn] at hne ⊢
    have he := isEmpty_eq_false_of_ne_nil hne
    simp only [mid_x_mm, he, Bool.false_eq_true, if_false]
  · intro hnil
    rw [argwhere_nonzero_eq_fg vol hnn] at hnil
    simp only [mid_x_mm, hnil, List.isEmpty_nil, if_true]

/-- Witness for C5 at the single-voxel volume. -/
theorem claim_C5_shared_midline_witness :
    (∀ t ∈ voxelIndices vol447, 0 ≤ vol447.data t.1 t.2.1 t.2.2)
    ∧ ∃ m : ℚ,
      (argwhere vol447 nonzeroMask ≠ [] →
        m = medianQ ((argwhere vol447 nonzeroMask).map fun v => (applyAffine idAffine v).x))
      ∧ (argwhere vol447 nonzeroMask = [] → m = (applyAffine idAffine (centerVox vol447)).x)
      ∧ process_study "sub.nii.gz" vol447 idAffine ⟨1, 1, 1⟩ [(1, "ET"), (2, "WT"), (3, "TC")]
          = (([(1, "ET"), (2, "WT"), (3, "TC")] : List (ℤ × String)).map fun ln =>
              processLabel idAffine vol447 ((1 : ℚ) * 1 * 1 / 1000) m
                (patientOf "sub.nii.gz") ln.1 ln.2) :=
  ⟨by decide,
    claim_C5_shared_midline "sub.nii.gz" vol447 idAffine ⟨1, 1, 1⟩
      [(1, "ET"), (2, "WT"), (3, "TC")] (by decide)⟩

/-- The per-label loop of process_study with a fallible per-label step
(e.g. a per-voxel transform that raises on a malformed affine): records
are accumulated while every step succeeds; the first raised exception
aborts the loop and discards the accumulated records. -/
def runLabels (step : ℤ × String → Except String LabelRecord) :
    List (ℤ × String) → Except String (List LabelRecord)
  | [] => Except.ok []
  | ln :: rest =>
    match step ln with
    | Except.error e => Except.error e
    | Except.ok r =>
      match runLabels step rest with
      | Except.error e => Except.error e
      | Except.ok rs => Except.ok (r :: rs)

/-- The try/except of process_study: an exception escaping the per-label
loop is re-raised as the run-level error wrapping the originating file
name and the underlying cause; only a fully successful loop returns its
results (which are then saved). -/
def process_study_exc (seg_file : String) (labels : List (ℤ × String))
    (step : ℤ × String → Except String LabelRecord) :
    Except String (List LabelRecord) :=
  match runLabels step labels with
  | Except.error e =>
      Except.error ("Error processing file " ++ seg_file ++ ": " ++ e)
  | Except.ok rs => Except.ok rs

/-- C6: the run either emits one record per configured label (and when
every step succeeds, exactly the per-label results in order), or aborts
with an error that wraps the file name and an underlying cause raised by
one of the configured labels, emitting no records at all. -/
theorem claim_C6_all_or_nothing (seg_file : String)
    (labels : List (ℤ × String))
    (step : ℤ × String → Except String LabelRecord) :
    ((∃ recs, process_study_exc seg_file labels step = Except.ok recs
        ∧ recs.length = labels.length
        ∧ ∀ ln ∈ labels, ∃ r, step ln = Except.ok r)
      ∨ (∃ cause, process_study_exc seg_file labels step
            = Except.error ("Error processing file " ++ seg_file ++ ": " ++ cause)
          ∧ ∃ ln ∈ labels, step ln = Except.error cause))
    ∧ ∀ f : ℤ × String → LabelRecord,
        process_study_exc seg_file labels (fun ln => Except.ok (f ln))
          = Except.ok (labels.map f) := by
  constructor
  · have key : (∃ recs, runLabels step labels = Except.ok recs
        ∧ recs.length = labels.length
        ∧ ∀ ln ∈ labels, ∃ r, step ln = Except.ok r)
      ∨ (∃ cause, runLabels step labels = Except.error cause
          ∧ ∃ ln ∈ labels, step ln = Except.error cause) := by
      induction labels with
      | nil => exact Or.inl ⟨[], rfl, rfl, by simp⟩
      | cons ln rest ih =>
        cases hs : step ln with
        | error e =>
          refine Or.inr ⟨e, ?_, ln, List.mem_cons_self ln rest, hs⟩
          simp [runLabels, hs]
        | ok r =>
          rcases ih with ⟨recs, hrec, hlen, hall⟩ | ⟨cause, herr, lnc, hmem, hstep⟩
          · refine Or.inl ⟨r :: recs, ?_, by simp [hlen], ?_⟩
            · simp [runLabels, hs, hrec]
            · intro x hx
              rcases List.mem_cons.mp hx with hx | hx
              · exact ⟨r, hx ▸ hs⟩
              · exact hall x hx
          · refine Or.inr ⟨cause, ?_, lnc, List.mem_cons_of_mem ln hmem, hstep⟩
            simp [runLabels, hs, herr]
    rcases key with ⟨recs, hrec, hlen, hall⟩ | ⟨cause, herr, hw⟩
    · exact Or.inl ⟨recs, by simp [process_study_exc, hrec], hlen, hall⟩
    · exact Or.inr ⟨cause, by simp [process_study_exc, herr], hw⟩
  · intro f
    have hok : ∀ ls : List (ℤ × String),
        runLabels (fun ln => Except.ok (f ln)) ls = Except.ok (ls.map f) := by
      intro ls
      induction ls with
      | nil => rfl
      | cons a rest ih => simp [runLabels, ih]
    simp [process_study_exc, hok]

/-- C7: shape (4,4,4), single voxel at (0,0,0) labeled 1, identity
affine, unit spacing: volume_mL = 0.001, centroid = (0,0,0) mm, midline
0, the voxel counts as right by the tie-break, asymmetry_index = -1. -/
theorem claim_C7_single_voxel_scenario :
    mid_x_mm vol447 idAffine = 0
    ∧ hemisphericCounts idAffine (argwhere vol447 (labelMask 1))
        (mid_x_mm vol447 idAffine) = (0, 1)
    ∧ (process_study "sub.nii.gz" vol447 idAffine ⟨1, 1, 1⟩
        [(1, "ET"), (2, "WT"), (3, "TC")]).getD 0 defaultRecord
      = ⟨"sub", "ET", 1 / 1000, -1, some 0, some 0, some 0⟩ := by
  have ha : argwhere vol447 fgMask = [⟨0, 0, 0⟩] := by decide
  have hb : argwhere vol447 (labelMask 1) = [⟨0, 0, 0⟩] := by decide
  have happ : applyAffine idAffine (⟨0, 0, 0⟩ : Vec3) = ⟨0, 0, 0⟩ := by
    simp [applyAffine, idAffine]
  have hmid : mid_x_mm vol447 idAffine = 0 := by
    simp [mid_x_mm, ha, happ, medianQ, List.insertionSort, List.orderedInsert]
  have hcount : hemisphericCounts idAffine [(⟨0, 0, 0⟩ : Vec3)] 0 = (0, 1) := by
    simp [hemisphericCounts, happ]
  have hpat : patientOf "sub.nii.gz" = "sub" := by decide
  refine ⟨hmid, ?_, ?_⟩
  · rw [hb, hmid]
    exact hcount
  · rw [process_study_getD "sub.nii.gz" vol447 idAffine ⟨1, 1, 1⟩
      [(1, "ET"), (2, "WT"), (3, "TC")] 0 (by decide)]
    have hlab : (([(1, "ET"), (2, "WT"), (3, "TC")] : List (ℤ × String)).getD 0 (0, "")) = (1, "ET") := rfl
    rw [hlab]
    simp only [processLabel, hb, hmid, hcount, hpat]
    simp [centroid_mm, vmean, happ, LabelRecord.mk.injEq]

/-- C8 counterexample: the label mapping of a constructed service is
provably the fixed BraTS mapping {1: ET, 2: WT, 3: TC}.  The constructor
VolumetryService.init takes no caller argument at all, so the mapping is
hardcoded domain knowledge baked into the engine, refuting the claim
that it is caller-supplied configuration. -/
theorem claim_C8_counterexample :
    VolumetryService.init.labels_dict = [(1, "ET"), (2, "WT"), (3, "TC")] :=
  rfl

/-- C8 amended: the mapping is hardcoded to {1: ET, 2: WT, 3: TC} by the
argumentless constructor; the engine does emit exactly one Label Record
per labels_dict entry, in the mapping's iteration order. -/
theorem claim_C8_amended_hardcoded_mapping (svc : VolumetryService)
    (filename : String) (vol : Volume) (A : Affine) (zooms : Vec3) :
    VolumetryService.init.labels_dict = [(1, "ET"), (2, "WT"), (3, "TC")]
    ∧ (svc.process_study filename vol A zooms).length = svc.labels_dict.length
    ∧ ((svc.process_study filename vol A zooms).map fun r => r.label)
        = svc.labels_dict.map fun ln => ln.2 := by
  refine ⟨rfl, ?_, ?_⟩
  · simp [VolumetryService.process_study, process_study]
  · simp only [VolumetryService.process_study, process_study, List.map_map]
    apply List.map_congr_left
    intro ln _
    rfl

/-- The head chunk of splitting a character list on the dot separator is
exactly the prefix before the first dot. -/
theorem splitOn_headD_takeWhile (l : List Char) :
    (l.splitOn '.').headD [] = l.takeWhile fun c => !(c == '.') := by
  induction l with
  | nil => rfl
  | cons a tl ih =>
    by_cases h : a = '.'
    · subst h
      simp [List.splitOn, List.splitOnP_cons, List.takeWhile_cons]
    · have hne := List.splitOnP_ne_nil (fun c => c == '.') tl
      obtain ⟨hd, tls, hx⟩ := List.exists_cons_of_ne_nil hne
      simp only [List.splitOn] at ih hx ⊢
      simp [List.splitOnP_cons, h, hx, List.takeWhile_cons,
        List.modifyHead] at ih ⊢
      exact ih

/-- The spec's reading of the patient field: the portion of the filename
before its first dot character. -/
def specPatient (filename : String) : String :=
  String.mk (filename.toList.takeWhile fun c => !(c == '.'))

/-- C10: every emitted record's patient field is the portion of the
supplied filename before its first dot (empty when the filename starts
with a dot). -/
theorem claim_C10_patient_prefix (filename : String) (vol : Volume)
    (A : Affine) (zooms : Vec3) (labels : List (ℤ × String))
    (r : LabelRecord)
    (hr : r ∈ process_study filename vol A zooms labels) :
    r.patient = specPatient filename := by
  simp only [process_study, List.mem_map] at hr
  obtain ⟨ln, _, hrec⟩ := hr
  have hpat : r.patient = patientOf filename := by
    rw [← hrec]
    rfl
  rw [hpat, patientOf, specPatient, splitOn_headD_takeWhile]

/-- Witness for C10: the first record of the concrete run has patient
"sub" for filename "sub.nii.gz". -/
theorem claim_C10_patient_prefix_witness :
    ((process_study "sub.nii.gz" vol447 idAffine ⟨1, 1, 1⟩
        [(1, "ET"), (2, "WT"), (3, "TC")]).getD 0 defaultRecord)
      ∈ process_study "sub.nii.gz" vol447 idAffine ⟨1, 1, 1⟩
        [(1, "ET"), (2, "WT"), (3, "TC")]
    ∧ ((process_study "sub.nii.gz" vol447 idAffine ⟨1, 1, 1⟩
        [(1, "ET"), (2, "WT"), (3, "TC")]).getD 0 defaultRecord).patient
      = specPatient "sub.nii.gz" := by
  have hlen : 0 < (process_study "sub.nii.gz" vol447 idAffine ⟨1, 1, 1⟩
      [(1, "ET"), (2, "WT"), (3, "TC")]).length := by
    simp [process_study]
  have hmem : ((process_study "sub.nii.gz" vol447 idAffine ⟨1, 1, 1⟩
      [(1, "ET"), (2, "WT"), (3, "TC")]).getD 0 defaultRecord)
      ∈ process_study "sub.nii.gz" vol447 idAffine ⟨1, 1, 1⟩
        [(1, "ET"), (2, "WT"), (3, "TC")] := by
    rw [List.getD_eq_getElem?_getD, List.getElem?_eq_getElem hlen]
    simp only [Option.getD_some]
    exact List.getElem_mem hlen
  exact ⟨hmem, claim_C10_patient_prefix "sub.nii.gz" vol447 idAffine
    ⟨1, 1, 1⟩ [(1, "ET"), (2, "WT"), (3, "TC")] _ hmem⟩

/-- The median is invariant under permutation of its input list. -/
theorem medianQ_perm (l1 l2 : List ℚ) (h : l1.Perm l2) :
    medianQ l1 = medianQ l2 := by
  have hs : List.insertionSort (· ≤ ·) l1 = List.insertionSort (· ≤ ·) l2 := by
    refine List.eq_of_perm_of_sorted ?_ (List.sorted_insertionSort _ _)
      (List.sorted_insertionSort _ _)
    exact (List.perm_insertionSort _ l1).trans
      (h.trans (List.perm_insertionSort _ l2).symm)
  simp only [medianQ, hs, h.length_eq]

/-- The component-wise mean is invariant under permutation. -/
theorem vmean_perm (l1 l2 : List Vec3) (h : l1.Perm l2) :
    vmean l1 = vmean l2 := by
  simp only [vmean, (h.map Vec3.x).sum_eq, (h.map Vec3.y).sum_eq,
    (h.map Vec3.z).sum_eq, h.length_eq]

/-- Hemisphere counts depend only on the multiset of transformed world
coordinates of the selected voxels. -/
theorem hemisphericCounts_congr (A1 A2 : Affine) (c1 c2 : List Vec3)
    (mid : ℚ)
    (hp : (c2.map (applyAffine A2)).Perm (c1.map (applyAffine A1))) :
    hemisphericCounts A2 c2 mid = hemisphericCounts A1 c1 mid := by
  by_cases h1 : c1 = []
  · have h2 : c2 = [] := by
      have hp2 := hp
      rw [h1, List.map_nil] at hp2
      exact List.map_eq_nil_iff.mp hp2.eq_nil
    simp [hemisphericCounts, h1, h2]
  · have h2 : c2 ≠ [] := by
      intro hc
      apply h1
      have hp2 := hp.symm
      rw [hc, List.map_nil] at hp2
      exact List.map_eq_nil_iff.mp hp2.eq_nil
    have he1 := isEmpty_eq_false_of_ne_nil h1
    have he2 := isEmpty_eq_false_of_ne_nil h2
    have hx : ((c2.map (applyAffine A2)).map Vec3.x).Perm
        ((c1.map (applyAffine A1)).map Vec3.x) := hp.map Vec3.x
    simp only [List.map_map] at hx
    simp only [hemisphericCounts, he1, he2, Bool.false_eq_true, if_false]
    rw [show ((fun v => (applyAffine A2 v).x) : Vec3 → ℚ)
        = Vec3.x ∘ applyAffine A2 from rfl,
      show ((fun v => (applyAffine A1 v).x) : Vec3 → ℚ)
        = Vec3.x ∘ applyAffine A1 from rfl]
    rw [hx.countP_eq, hx.countP_eq]

/-- The centroid depends only on the multiset of transformed world
coordinates of the selected voxels. -/
theorem centroid_mm_congr (A1 A2 : Affine) (c1 c2 : List Vec3)
    (hp : (c2.map (applyAffine A2)).Perm (c1.map (applyAffine A1))) :
    centroid_mm A2 c2 = centroid_mm A1 c1 := by
  by_cases h1 : c1 = []
  · have h2 : c2 = [] := by
      have hp2 := hp
      rw [h1, List.map_nil] at hp2
      exact List.map_eq_nil_iff.mp hp2.eq_nil
    simp [centroid_mm, h1, h2]
  · have h2 : c2 ≠ [] := by
      intro hc
      apply h1
      have hp2 := hp.symm
      rw [hc, List.map_nil] at hp2
      exact List.map_eq_nil_iff.mp hp2.eq_nil
    have he1 := isEmpty_eq_false_of_ne_nil h1
    have he2 := isEmpty_eq_false_of_ne_nil h2
    simp only [centroid_mm, he1, he2, Bool.false_eq_true, if_false,
      applyAffine_vmean A1 c1 h1, applyAffine_vmean A2 c2 h2,
      vmean_perm _ _ hp]

/-- The shared midline agrees between two storage orders of the same
anatomy: the foreground world points form the same multiset, and when
the segmentation is empty the central-voxel world-x values agree. -/
theorem mid_x_mm_congr (vol1 vol2 : Volume) (A1 A2 : Affine)
    (hpermFg : ((argwhere vol2 fgMask).map (applyAffine A2)).Perm
      ((argwhere vol1 fgMask).map (applyAffine A1)))
    (hmid : argwhere vol1 fgMask ≠ []
      ∨ (applyAffine A2 (centerVox vol2)).x = (applyAffine A1 (centerVox vol1)).x) :
    mid_x_mm vol2 A2 = mid_x_mm vol1 A1 := by
  by_cases h1 : argwhere vol1 fgMask = []
  · have h2 : argwhere vol2 fgMask = [] := by
      have hp2 := hpermFg
      rw [h1, List.map_nil] at hp2
      exact List.map_eq_nil_iff.mp hp2.eq_nil
    have hc := hmid.resolve_left (by simp [h1])
    simp [mid_x_mm, h1, h2, hc]
  · have h2 : argwhere vol2 fgMask ≠ [] := by
      intro hc
      apply h1
      have hp2 := hpermFg.symm
      rw [hc, List.map_nil] at hp2
      exact List.map_eq_nil_iff.mp hp2.eq_nil
    have he1 := isEmpty_eq_false_of_ne_nil h1
    have he2 := isEmpty_eq_false_of_ne_nil h2
    have hx : (((argwhere vol2 fgMask).map (applyAffine A2)).map Vec3.x).Perm
        (((argwhere vol1 fgMask).map (applyAffine A1)).map Vec3.x) :=
      hpermFg.map Vec3.x
    simp only [List.map_map] at hx
    simp only [mid_x_mm, he1, he2, Bool.false_eq_true, if_false]
    exact medianQ_perm _ _ hx

/-- A per-label record depends only on the multiset of transformed world
coordinates of the label's voxels (given equal shared inputs). -/
theorem processLabel_congr (A1 A2 : Affine) (vol1 vol2 : Volume)
    (vv mid : ℚ) (pat : String) (L : ℤ) (name : String)
    (hp : ((argwhere vol2 (labelMask L)).map (applyAffine A2)).Perm
      ((argwhere vol1 (labelMask L)).map (applyAffine A1))) :
    processLabel A2 vol2 vv mid pat L name
      = processLabel A1 vol1 vv mid pat L name := by
  have hlen : (argwhere vol2 (labelMask L)).length
      = (argwhere vol1 (labelMask L)).length := by
    have hl := hp.length_eq
    simpa using hl
  simp only [processLabel, hemisphericCounts_congr A1 A2 _ _ mid hp,
    centroid_mm_congr A1 A2 _ _ hp, hlen]

/-- C9: two input volumes storing the same anatomy in equivalent storage
orders (same multiset of world points per label and for the foreground,
same voxel volume, and agreeing central world-x when the segmentation is
empty) yield identical Label Records; in exact arithmetic the tolerance
is zero. -/
theorem claim_C9_storage_order_invariance (filename : String)
    (vol1 vol2 : Volume) (A1 A2 : Affine) (z1 z2 : Vec3)
    (labels : List (ℤ × String))
    (hpermL : ∀ ln ∈ labels,
      ((argwhere vol2 (labelMask ln.1)).map (applyAffine A2)).Perm
        ((argwhere vol1 (labelMask ln.1)).map (applyAffine A1)))
    (hpermFg : ((argwhere vol2 fgMask).map (applyAffine A2)).Perm
      ((argwhere vol1 fgMask).map (applyAffine A1)))
    (hzoom : z2.x * z2.y * z2.z = z1.x * z1.y * z1.z)
    (hmid : argwhere vol1 fgMask ≠ []
      ∨ (applyAffine A2 (centerVox vol2)).x = (applyAffine A1 (centerVox vol1)).x) :
    process_study filename vol2 A2 z2 labels
      = process_study filename vol1 A1 z1 labels := by
  simp only [process_study, hzoom, mid_x_mm_congr vol1 vol2 A1 A2 hpermFg hmid]
  apply List.map_congr_left
  intro ln hln
  exact processLabel_congr A1 A2 vol1 vol2 _ _ _ ln.1 ln.2 (hpermL ln hln)

/-- A 2x1x1 volume with label 1 at index 0 and label 2 at index 1. -/
def volFlipA : Volume := ⟨2, 1, 1, fun i _ _ => if i = 0 then 1 else 2⟩

/-- The same anatomy stored with the x axis reversed. -/
def volFlipB : Volume := ⟨2, 1, 1, fun i _ _ => if i = 0 then 2 else 1⟩

/-- The affine of the flipped storage order: world x = 1 - index. -/
def flipAffine : Affine := ⟨-1, 0, 0, 1, 0, 1, 0, 0, 0, 0, 1, 0⟩

/-- Witness for C9: the same two-voxel anatomy stored forwards with the
identity affine and backwards with an x-flipping affine yields identical
record lists. -/
theorem claim_C9_storage_order_invariance_witness :
    ((∀ ln ∈ ([(1, "ET"), (2, "WT")] : List (ℤ × String)),
        ((argwhere volFlipB (labelMask ln.1)).map (applyAffine flipAffine)).Perm
          ((argwhere volFlipA (labelMask ln.1)).map (applyAffine idAffine)))
      ∧ ((argwhere volFlipB fgMask).map (applyAffine flipAffine)).Perm
          ((argwhere volFlipA fgMask).map (applyAffine idAffine))
      ∧ ((⟨1, 1, 1⟩ : Vec3).x * (⟨1, 1, 1⟩ : Vec3).y * (⟨1, 1, 1⟩ : Vec3).z
          = (⟨1, 1, 1⟩ : Vec3).x * (⟨1, 1, 1⟩ : Vec3).y * (⟨1, 1, 1⟩ : Vec3).z)
      ∧ (argwhere volFlipA fgMask ≠ []
          ∨ (applyAffine flipAffine (centerVox volFlipB)).x
            = (applyAffine idAffine (centerVox volFlipA)).x))
    ∧ process_study "s.nii" volFlipB flipAffine ⟨1, 1, 1⟩ [(1, "ET"), (2, "WT")]
        = process_study "s.nii" volFlipA idAffine ⟨1, 1, 1⟩ [(1, "ET"), (2, "WT")] := by
  have e1 : argwhere volFlipB (labelMask 1) = [⟨1, 0, 0⟩] := by decide
  have e2 : argwhere volFlipA (labelMask 1) = [⟨0, 0, 0⟩] := by decide
  have e3 : argwhere volFlipB (labelMask 2) = [⟨0, 0, 0⟩] := by decide
  have e4 : argwhere volFlipA (labelMask 2) = [⟨1, 0, 0⟩] := by decide
  have e5 : argwhere volFlipB fgMask = [⟨0, 0, 0⟩, ⟨1, 0, 0⟩] := by decide
  have e6 : argwhere volFlipA fgMask = [⟨0, 0, 0⟩, ⟨1, 0, 0⟩] := by decide
  have hL : ∀ ln ∈ ([(1, "ET"), (2, "WT")] : List (ℤ × String)),
      ((argwhere volFlipB (labelMask ln.1)).map (applyAffine flipAffine)).Perm
        ((argwhere volFlipA (labelMask ln.1)).map (applyAffine idAffine)) := by
    intro ln hln
    rcases List.mem_cons.mp hln with h | h
    · subst h
      rw [e1, e2]
      norm_num [applyAffine, flipAffine, idAffine]
    · rcases List.mem_cons.mp h with h2 | h2
      · subst h2
        rw [e3, e4]
        norm_num [applyAffine, flipAffine, idAffine]
      · exact absurd h2 (List.not_mem_nil ln)
  have hFg : ((argwhere volFlipB fgMask).map (applyAffine flipAffine)).Perm
      ((argwhere volFlipA fgMask).map (applyAffine idAffine)) := by
    rw [e5, e6]
    have harith : ([⟨0, 0, 0⟩, ⟨1, 0, 0⟩] : List Vec3).map (applyAffine flipAffine)
        = [⟨1, 0, 0⟩, ⟨0, 0, 0⟩] := by
      norm_num [applyAffine, flipAffine]
    have harith2 : ([⟨0, 0, 0⟩, ⟨1, 0, 0⟩] : List Vec3).map (applyAffine idAffine)
        = [⟨0, 0, 0⟩, ⟨1, 0, 0⟩] := by
      norm_num [applyAffine, idAffine]
    rw [harith, harith2]
    exact List.Perm.swap _ _ _
  have hMid : argwhere volFlipA fgMask ≠ []
      ∨ (applyAffine flipAffine (centerVox volFlipB)).x
        = (applyAffine idAffine (centerVox volFlipA)).x := Or.inl (by decide)
  exact ⟨⟨hL, hFg, rfl, hMid⟩,
    claim_C9_storage_order_invariance "s.nii" volFlipA volFlipB idAffine
      flipAffine ⟨1, 1, 1⟩ ⟨1, 1, 1⟩ [(1, "ET"), (2, "WT")] hL hFg rfl hMid⟩

end Volumetry
